import Mathlib

/-!
Verification of the LC-3 virtual machine emulator (Go implementation).

This file gives a shallow embedding of the emulator core: the register
file, the 65536-word memory, the memory bus with its keyboard special
case, sign extension and condition flags, the sixteen opcode handlers,
the six trap vectors, the image-loading loop, and the command-line
surface of main.

Machine words are modelled as `Nat` with an explicit `% 65536` at every
place where the Go `uint16` arithmetic wraps.  Go slice/array indexing
is modelled by the checked accessors `arrGet` / `arrSet`, so that an
out-of-range index is an observable `Fault.oob` outcome rather than a
silent coercion.  Go `panic` becomes `Fault.fatal`.  Pending host input
is a list of byte values; host output is the list of character codes the
traps emit, in order.
-/

/-- Abnormal outcomes of an emulator operation.  `oob` models an
out-of-range Go slice/array index, and also the two log.Fatal branches of
memRead and memWrite, which are the code's own out-of-range reports.
`fatal` models an explicit Go panic (the unreachable bad-opcode default,
or a failed host read in GETC / IN). -/
inductive Fault
  | oob
  | fatal

deriving instance DecidableEq for Fault

/-- Checked read of element `i` of a Go slice/array of length `size`,
backed by a total function. -/
def arrGet (f : Nat → Nat) (size i : Nat) : Option Nat :=
  if i < size then some (f i) else none

/-- Checked write of element `i` of a Go slice/array of length `size`. -/
def arrSet (f : Nat → Nat) (size i v : Nat) : Option (Nat → Nat) :=
  if i < size then some (Function.update f i v) else none

/-- The mutable state of the VM.  `reg` models the 10-element register
array (R0..R7 at 0..7, PC at index 8, COND at index 9); `mem` models the
65536-word memory slice; `running` is the loop flag of main; `input` is
the sequence of bytes pending on the host terminal; `output` collects
the character codes written by the traps. -/
structure Machine where
  reg : Nat → Nat
  mem : Nat → Nat
  running : Bool
  input : List Nat
  output : List Nat

/-- Read of `reg[i]` (the Go register array has length R_COUNT = 10). -/
def regGet (m : Machine) (i : Nat) : Except Fault Nat :=
  match arrGet m.reg 10 i with
  | some v => Except.ok v
  | none => Except.error Fault.oob

/-- Write of `reg[i] = v`. -/
def regSet (m : Machine) (i v : Nat) : Except Fault Machine :=
  match arrSet m.reg 10 i v with
  | some f => Except.ok { m with reg := f }
  | none => Except.error Fault.oob

/-- The value updateFlags stores into reg[R_COND], as a function of the
inspected register value: FL_ZRO = 2 when the value is zero, FL_NEG = 4
when its high bit (bit 15) is one, FL_POS = 1 otherwise. -/
def condFlagOf (v : Nat) : Nat :=
  if v = 0 then 2 else if v >>> 15 ≠ 0 then 4 else 1

/-- updateFlags(r) from the source: inspects reg[r] and stores the
matching condition flag into reg[R_COND] (index 9). -/
def updateFlags (m : Machine) (r : Nat) : Except Fault Machine := do
  let v ← regGet m r
  regSet m 9 (condFlagOf v)

/-- signExtend(x, bitCount) from the source.  In Go both shift constants
are computed in uint16 arithmetic: `(1 << bitCount) - 1` and
`0xFFFF << bitCount` wrap modulo 2^16, hence the explicit `% 65536`
(the former is written as adding 65535 before the mod so that the Nat
subtraction also matches the uint16 wrap when `1 <<< bitCount` wraps
to zero). -/
def signExtend (x : Nat) (bitCount : Nat) : Nat :=
  let y := x &&& (((1 <<< bitCount) % 65536 + 65535) % 65536)
  if (y >>> (bitCount - 1)) &&& 1 ≠ 0 then
    y ||| ((65535 <<< bitCount) % 65536)
  else
    y

/-- memRead(address) from the source.  A read of MR_KBSR = 0xFE00 polls
the host: if a byte is pending it is consumed, memory[0xFE00] is set to
1 <<< 15 and memory[0xFE02] to the byte; otherwise memory[0xFE00] is set
to 0.  Then the guarded slice read: the Go guard is
`int(address) <= len(memory)` (that is, address ≤ 65536), under which
the slice access `memory[address]` itself needs address < 65536; the
`log.Fatal` else-branch is `Fault.oob`. -/
def memRead (m : Machine) (address : Nat) : Except Fault (Nat × Machine) := do
  let m1 ←
    if address = 0xFE00 then
      match m.input with
      | c :: rest =>
        match arrSet m.mem 65536 0xFE00 (1 <<< 15) with
        | some f1 =>
          match arrSet f1 65536 0xFE02 (c % 256) with
          | some f2 => Except.ok { m with mem := f2, input := rest }
          | none => Except.error Fault.oob
        | none => Except.error Fault.oob
      | [] =>
        match arrSet m.mem 65536 0xFE00 0 with
        | some f1 => Except.ok { m with mem := f1 }
        | none => Except.error Fault.oob
    else Except.ok m
  if address ≤ 65536 then
    match arrGet m1.mem 65536 address with
    | some v => Except.ok (v, m1)
    | none => Except.error Fault.oob
  else Except.error Fault.oob

/-- memWrite(address, value) from the source: guarded by
`address <= 65535`; the `log.Fatal` else-branch is `Fault.oob`. -/
def memWrite (m : Machine) (address v : Nat) : Except Fault Machine :=
  if address ≤ 65535 then
    match arrSet m.mem 65536 address v with
    | some f => Except.ok { m with mem := f }
    | none => Except.error Fault.oob
  else Except.error Fault.oob

/-- The TRAP_PUTS loop from the source, a Go do-while: in each iteration
it reads `chr = memory[address+i] & 0xFFFF`, prints chr (also when chr is
zero: the test comes after the print), increments i, and continues while
chr was non-zero.  The index arithmetic is uint16, hence `% 65536`.  The
fuel argument bounds the recursion; the handler passes 65536, enough to
visit every address once (with no zero word in memory the Go loop would
not terminate at all). -/
def putsLoop (mem : Nat → Nat) (address : Nat) : Nat → Nat → Option (List Nat)
  | 0, _ => some []
  | fuel + 1, i => do
    let c ← arrGet mem 65536 ((address + i) % 65536)
    let chr := c &&& 0xFFFF
    if chr = 0 then
      some [chr]
    else
      (putsLoop mem address fuel ((i + 1) % 65536)).map (chr :: ·)

/-- The TRAP_PUTSP loop from the source: reads `chr = memory[address+i]`,
breaks when chr is zero, otherwise prints the low byte `chr & 0xFF`, then
the high byte `chr >>> 8` when that is non-zero — and increments i BOTH
in the loop header and at the end of the body, so each iteration advances
by two words. -/
def putspLoop (mem : Nat → Nat) (address : Nat) : Nat → Nat → Option (List Nat)
  | 0, _ => some []
  | fuel + 1, i => do
    let chr ← arrGet mem 65536 ((address + i) % 65536)
    if chr = 0 then
      some []
    else
      (putspLoop mem address fuel ((i + 2) % 65536)).map
        (fun rest => (chr &&& 0xFF) :: (if chr >>> 8 ≠ 0 then [chr >>> 8] else []) ++ rest)

/-- Character codes of the prompt printed by TRAP_IN,
fmt.Println("Enter character: "). -/
def promptChars : List Nat := ("Enter character: ".toList.map Char.toNat) ++ [10]

/-- Character codes printed by TRAP_HALT, fmt.Println("HALT"). -/
def haltChars : List Nat := [72, 65, 76, 84, 10]

/-- OP_BR handler: pcOffset9, condFlag = bits 11..9; adds the offset to
PC when `condFlag & reg[R_COND]` is non-zero. -/
def opBr (m : Machine) (instr : Nat) : Except Fault Machine := do
  let pcOffset := signExtend (instr &&& 0x1FF) 9
  let condFlag := (instr >>> 9) &&& 0x7
  let c ← regGet m 9
  if condFlag &&& c ≠ 0 then do
    let pc ← regGet m 8
    regSet m 8 ((pc + pcOffset) % 65536)
  else
    Except.ok m

/-- OP_ADD handler: when the imm flag (bit 5) is 1, adds sign-extended
imm5, otherwise reg[SR2]; stores into reg[DR] with uint16 wrap and calls
updateFlags(DR). -/
def opAdd (m : Machine) (instr : Nat) : Except Fault Machine := do
  let r0 := (instr >>> 9) &&& 0x7
  let r1 := (instr >>> 6) &&& 0x7
  let immFlag := (instr >>> 5) &&& 0x1
  let m1 ←
    if immFlag = 1 then do
      let imm5 := signExtend (instr &&& 0x1F) 5
      let v1 ← regGet m r1
      regSet m r0 ((v1 + imm5) % 65536)
    else do
      let v1 ← regGet m r1
      let v2 ← regGet m (instr &&& 0x7)
      regSet m r0 ((v1 + v2) % 65536)
  updateFlags m1 r0

/-- OP_AND handler (the source tests `immFlag == 0` first). -/
def opAnd (m : Machine) (instr : Nat) : Except Fault Machine := do
  let r0 := (instr >>> 9) &&& 0x7
  let r1 := (instr >>> 6) &&& 0x7
  let immFlag := (instr >>> 5) &&& 0x1
  let m1 ←
    if immFlag = 0 then do
      let v1 ← regGet m r1
      let v2 ← regGet m (instr &&& 0x7)
      regSet m r0 (v1 &&& v2)
    else do
      let v1 ← regGet m r1
      regSet m r0 (v1 &&& signExtend (instr &&& 0x1F) 5)
  updateFlags m1 r0

/-- OP_NOT handler: Go `^v` on uint16 is complement, i.e. XOR 0xFFFF. -/
def opNot (m : Machine) (instr : Nat) : Except Fault Machine := do
  let r0 := (instr >>> 9) &&& 0x7
  let r1 := (instr >>> 6) &&& 0x7
  let v1 ← regGet m r1
  let m1 ← regSet m r0 (v1 ^^^ 65535)
  updateFlags m1 r0

/-- OP_JMP handler: PC = reg[bits 8..6]. -/
def opJmp (m : Machine) (instr : Nat) : Except Fault Machine := do
  let r1 := (instr >>> 6) &&& 0x7
  let v ← regGet m r1
  regSet m 8 v

/-- OP_JSR handler: R7 = PC; long form (bit 11 set) adds pcOffset11 to
PC, short form jumps to reg[bits 8..6]. -/
def opJsr (m : Machine) (instr : Nat) : Except Fault Machine := do
  let pc ← regGet m 8
  let m1 ← regSet m 7 pc
  let flag := (instr >>> 11) &&& 1
  if flag = 0 then do
    let r1 := (instr >>> 6) &&& 0x7
    let v ← regGet m1 r1
    regSet m1 8 v
  else do
    let pc2 ← regGet m1 8
    regSet m1 8 ((pc2 + signExtend (instr &&& 0x7FF) 11) % 65536)

/-- OP_LD handler: reg[DR] = memRead(PC + pcOffset9); updateFlags. -/
def opLd (m : Machine) (instr : Nat) : Except Fault Machine := do
  let r0 := (instr >>> 9) &&& 0x7
  let pcOffset := signExtend (instr &&& 0x1FF) 9
  let pc ← regGet m 8
  let (v, m1) ← memRead m ((pc + pcOffset) % 65536)
  let m2 ← regSet m1 r0 v
  updateFlags m2 r0

/-- OP_LDI handler: reg[DR] = memRead(memRead(PC + pcOffset9));
updateFlags. -/
def opLdi (m : Machine) (instr : Nat) : Except Fault Machine := do
  let r0 := (instr >>> 9) &&& 0x7
  let pcOffset := signExtend (instr &&& 0x1FF) 9
  let pc ← regGet m 8
  let (a, m1) ← memRead m ((pc + pcOffset) % 65536)
  let (v, m2) ← memRead m1 a
  let m3 ← regSet m2 r0 v
  updateFlags m3 r0

/-- OP_LDR handler: reg[DR] = memRead(reg[bits 8..6] + offset6);
updateFlags. -/
def opLdr (m : Machine) (instr : Nat) : Except Fault Machine := do
  let r0 := (instr >>> 9) &&& 0x7
  let offset := signExtend (instr &&& 0x3F) 6
  let r1 := (instr >>> 6) &&& 0x7
  let base ← regGet m r1
  let (v, m1) ← memRead m ((base + offset) % 65536)
  let m2 ← regSet m1 r0 v
  updateFlags m2 r0

/-- OP_LEA handler: reg[DR] = PC + pcOffset9; updateFlags. -/
def opLea (m : Machine) (instr : Nat) : Except Fault Machine := do
  let r0 := (instr >>> 9) &&& 0x7
  let pcOffset := signExtend (instr &&& 0x1FF) 9
  let pc ← regGet m 8
  let m1 ← regSet m r0 ((pc + pcOffset) % 65536)
  updateFlags m1 r0

/-- OP_ST handler: memWrite(PC + pcOffset9, reg[DR]). -/
def opSt (m : Machine) (instr : Nat) : Except Fault Machine := do
  let r0 := (instr >>> 9) &&& 0x7
  let pcOffset := signExtend (instr &&& 0x1FF) 9
  let pc ← regGet m 8
  let v ← regGet m r0
  memWrite m ((pc + pcOffset) % 65536) v

/-- OP_STI handler: memWrite(memRead(PC + pcOffset9), reg[DR]). -/
def opSti (m : Machine) (instr : Nat) : Except Fault Machine := do
  let r0 := (instr >>> 9) &&& 0x7
  let pcOffset := signExtend (instr &&& 0x1FF) 9
  let pc ← regGet m 8
  let (a, m1) ← memRead m ((pc + pcOffset) % 65536)
  let v ← regGet m1 r0
  memWrite m1 a v

/-- OP_STR handler: memWrite(reg[bits 8..6] + offset6, reg[DR]). -/
def opStr (m : Machine) (instr : Nat) : Except Fault Machine := do
  let r0 := (instr >>> 9) &&& 0x7
  let r1 := (instr >>> 6) &&& 0x7
  let offset := signExtend (instr &&& 0x3F) 6
  let base ← regGet m r1
  let v ← regGet m r0
  memWrite m ((base + offset) % 65536) v

/-- OP_RTI: in the source this switch case has an empty body and Go
switch cases do not fall through, so the instruction is a no-op and the
`panic("bad opcode")` default below all cases is not reached. -/
def opRti (m : Machine) (_instr : Nat) : Except Fault Machine :=
  Except.ok m

/-- OP_RES: empty switch case in the source, a no-op (see opRti). -/
def opRes (m : Machine) (_instr : Nat) : Except Fault Machine :=
  Except.ok m

/-- OP_TRAP handler from the source: saves PC into R7, then switches on
the low 8 bits.  GETC (0x20) and IN (0x23) read one host rune (the Go
code panics when the read fails, modelled by `Fault.fatal` on empty
input) and truncate it to uint16; IN prints its prompt first.  OUT
(0x21) prints reg[R0].  PUTS (0x22) and PUTSP (0x24) run their loops
over memory.  HALT (0x25) prints HALT and clears the running flag.  A
vector outside 0x20..0x25 matches no case and is a no-op. -/
def opTrap (m : Machine) (instr : Nat) : Except Fault Machine := do
  let pc ← regGet m 8
  let m1 ← regSet m 7 pc
  match instr &&& 0xFF with
  | 0x20 =>
    match m1.input with
    | c :: rest => do
      let m2 ← regSet { m1 with input := rest } 0 (c % 65536)
      updateFlags m2 0
    | [] => Except.error Fault.fatal
  | 0x21 => do
    let c ← regGet m1 0
    Except.ok { m1 with output := m1.output ++ [c] }
  | 0x22 => do
    let a ← regGet m1 0
    match putsLoop m1.mem a 65536 0 with
    | some out => Except.ok { m1 with output := m1.output ++ out }
    | none => Except.error Fault.oob
  | 0x23 =>
    match m1.input with
    | c :: rest => do
      let m2 ← regSet { m1 with output := m1.output ++ promptChars, input := rest } 0 (c % 65536)
      updateFlags m2 0
    | [] => Except.error Fault.fatal
  | 0x24 => do
    let a ← regGet m1 0
    match putspLoop m1.mem a 65536 0 with
    | some out => Except.ok { m1 with output := m1.output ++ out }
    | none => Except.error Fault.oob
  | 0x25 =>
    Except.ok { m1 with output := m1.output ++ haltChars, running := false }
  | _ => Except.ok m1

/-- The switch over `op = instr >>> 12` in the execution loop, with the
Go case order normalised to opcode value; the default branch is the
`panic("bad opcode")` (reachable only when the dispatched value exceeds
15, which cannot happen for a value produced by `instr >>> 12` from a
16-bit word). -/
def dispatch : Nat → Machine → Nat → Except Fault Machine
  | 0, m, instr => opBr m instr
  | 1, m, instr => opAdd m instr
  | 2, m, instr => opLd m instr
  | 3, m, instr => opSt m instr
  | 4, m, instr => opJsr m instr
  | 5, m, instr => opAnd m instr
  | 6, m, instr => opLdr m instr
  | 7, m, instr => opStr m instr
  | 8, m, instr => opRti m instr
  | 9, m, instr => opNot m instr
  | 10, m, instr => opLdi m instr
  | 11, m, instr => opSti m instr
  | 12, m, instr => opJmp m instr
  | 13, m, instr => opRes m instr
  | 14, m, instr => opLea m instr
  | 15, m, instr => opTrap m instr
  | _ + 16, _, _ => Except.error Fault.fatal

/-- Execution of one already-fetched instruction word (the switch body;
PC has already been incremented past the instruction). -/
def execInstr (m : Machine) (instr : Nat) : Except Fault Machine :=
  dispatch (instr >>> 12) m instr

/-- One iteration of the fetch-decode-execute loop: fetch
`instr = memRead(reg[R_PC])`, increment PC with uint16 wrap, dispatch. -/
def step (m : Machine) : Except Fault Machine := do
  let pc ← regGet m 8
  let (instr, m1) ← memRead m pc
  let pc1 ← regGet m1 8
  let m2 ← regSet m1 8 ((pc1 + 1) % 65536)
  execInstr m2 instr

/-- The machine state right before the first loop iteration of main:
registers zeroed, then reg[R_COND] = FL_ZRO = 2 and reg[R_PC] = 0x3000;
memory and pending input are parameters (memory holds whatever the image
loader installed). -/
def initMachine (mem : Nat → Nat) (input : List Nat) : Machine :=
  { reg := Function.update (Function.update (fun _ => 0) 9 2) 8 0x3000
    mem := mem
    running := true
    input := input
    output := [] }

/-- States reachable from `a` by iterating the execution loop (a step is
taken only while the running flag is set, as in main). -/
inductive Reaches : Machine → Machine → Prop
  | refl (m : Machine) : Reaches m m
  | tail {a b c : Machine} : Reaches a b → b.running = true →
      step b = Except.ok c → Reaches a c

/-- Well-formed machine states: every register and memory cell holds a
16-bit value, as the Go uint16 types guarantee. -/
def WF (m : Machine) : Prop :=
  (∀ i, m.reg i < 65536) ∧ (∀ a, m.mem a < 65536)

/-- The memory-writing loop of readImage from the source:
`for i := origin; i < math.MaxUint16; i++` reads the next big-endian
word of the remaining file bytes into `val` with binary.Read — once the
data is exhausted binary.Read fails and leaves `val` at its zero value —
and stores `memory[i] = val`.  So the loop runs to address 0xFFFE
regardless of how much data the file held, writing zeros past the data
(the two stray zero bytes at the end of the Go read buffer contribute
one more zero word and do not change this).  `data` is the list of words
following the two origin header bytes. -/
def loadLoop (mem : Nat → Nat) (i : Nat) (data : List Nat) : Nat → Nat :=
  if i < 65535 then
    loadLoop (Function.update mem i (data.headD 0)) (i + 1) data.tail
  else
    mem
termination_by 65535 - i

/-- Memory effect of a successful readImage call on a file whose header
word is `origin` and whose remaining big-endian words are `data`. -/
def readImageMem (origin : Nat) (data : List Nat) (mem : Nat → Nat) : Nat → Nat :=
  loadLoop mem origin data

/-- Outcome of the command-line handling in main: usage printed and exit
code 2, a failed image load printed and exit code 1, or entry into the
execution loop. -/
inductive CliResult
  | usageExit2
  | loadFailExit1 (path : String)
  | run

deriving instance DecidableEq for CliResult

/-- The image-loading loop of main over the whole os.Args list
(`for i := 0; i < len(args); i++` — index 0, the program name, included),
with `ok` telling which paths readImage accepts; stops at the first
failure with exit code 1. -/
def runImages (ok : String → Bool) : List String → CliResult
  | [] => CliResult.run
  | p :: rest => if ok p then runImages ok rest else CliResult.loadFailExit1 p

/-- The paths main passes to readImage, in order: every element of
os.Args from index 0 on, up to and including the first failing one. -/
def loadAttempts (ok : String → Bool) : List String → List String
  | [] => []
  | p :: rest => if ok p then p :: loadAttempts ok rest else [p]

/-- Command-line surface of main: with fewer than two elements in
os.Args (i.e. zero image arguments) it prints the usage string and exits
with code 2; otherwise it runs the image-loading loop over os.Args. -/
def cliMain (ok : String → Bool) (args : List String) : CliResult :=
  if args.length < 2 then CliResult.usageExit2
  else runImages ok args

/-- Modelled from the spec, for comparison with the source's putspLoop:
PUTSP as specified reads words one at a time — advancing exactly ONE
word per iteration — stopping at the first zero word, and for each
non-zero word emits the low byte and then, when non-zero, the high
byte. -/
def putspSpecLoop (mem : Nat → Nat) (address : Nat) : Nat → Nat → List Nat
  | 0, _ => []
  | fuel + 1, i =>
    let chr := mem ((address + i) % 65536)
    if chr = 0 then
      []
    else
      (chr &&& 0xFF) :: (if chr >>> 8 ≠ 0 then [chr >>> 8] else [])
        ++ putspSpecLoop mem address fuel ((i + 1) % 65536)

/-- Memory image holding the word string "AB" at 0x4000: two words
0x41, 0x42 and zeros elsewhere. -/
def memAB : Nat → Nat := fun a =>
  if a = 0x4000 then 0x41 else if a = 0x4001 then 0x42 else 0

/-- A running machine with R0 = 0x4000 over `memAB`, about to execute a
trap instruction. -/
def machineAB : Machine :=
  { reg := Function.update (fun _ => 0) 0 0x4000
    mem := memAB
    running := true
    input := []
    output := [] }

/-- Memory image holding the word string "Hi!" at 0x4000: words 72, 105,
33, then a zero terminator. -/
def memHi : Nat → Nat := fun a =>
  if a = 0x4000 then 72 else if a = 0x4001 then 105
  else if a = 0x4002 then 33 else 0

/-- A running machine with R0 = 0x4000 over `memHi`. -/
def machineHi : Machine :=
  { reg := Function.update (fun _ => 0) 0 0x4000
    mem := memHi
    running := true
    input := []
    output := [] }

deriving instance DecidableEq for Except

/-! ### Basic lemmas about the checked accessors and the Except monad -/

theorem ok_bind {α β : Type} (a : α) (f : α → Except Fault β) :
    (Except.ok a >>= f : Except Fault β) = f a := rfl

theorem error_bind {α β : Type} (e : Fault) (f : α → Except Fault β) :
    (Except.error e >>= f : Except Fault β) = Except.error e := rfl

theorem bind_ok_inv {α β : Type} {e : Except Fault α} {f : α → Except Fault β} {b : β}
    (h : e >>= f = Except.ok b) : ∃ a, e = Except.ok a ∧ f a = Except.ok b := by
  cases e with
  | ok a => exact ⟨a, rfl, h⟩
  | error err => exact absurd h (by rw [error_bind]; exact fun hc => Except.noConfusion hc)

theorem arrGet_lt (f : Nat → Nat) {size i : Nat} (h : i < size) :
    arrGet f size i = some (f i) := by
  simp [arrGet, h]

theorem arrSet_lt (f : Nat → Nat) {size i : Nat} (v : Nat) (h : i < size) :
    arrSet f size i v = some (Function.update f i v) := by
  simp [arrSet, h]

theorem regGet_lt (m : Machine) {i : Nat} (h : i < 10) :
    regGet m i = Except.ok (m.reg i) := by
  simp [regGet, arrGet_lt _ h]

theorem regSet_lt (m : Machine) {i : Nat} (v : Nat) (h : i < 10) :
    regSet m i v = Except.ok { m with reg := Function.update m.reg i v } := by
  simp [regSet, arrSet_lt _ _ h]

theorem memWrite_lt (m : Machine) {a : Nat} (v : Nat) (h : a < 65536) :
    memWrite m a v = Except.ok { m with mem := Function.update m.mem a v } := by
  have h1 : a ≤ 65535 := by omega
  simp [memWrite, h1, arrSet_lt _ _ h]

theorem memWrite_ok_inv {m m2 : Machine} {a v : Nat} (h : memWrite m a v = Except.ok m2) :
    m2.reg = m.reg ∧ m2.running = m.running ∧ m2.output = m.output ∧ m2.input = m.input := by
  unfold memWrite at h
  split at h
  · split at h
    · exact (Except.ok.injEq _ _).mp h ▸ ⟨rfl, rfl, rfl, rfl⟩
    · exact absurd h (fun hc => Except.noConfusion hc)
  · exact absurd h (fun hc => Except.noConfusion hc)

theorem updateFlags_eq (m : Machine) {r : Nat} (h : r < 10) :
    updateFlags m r =
      Except.ok { m with reg := Function.update m.reg 9 (condFlagOf (m.reg r)) } := by
  rw [updateFlags, regGet_lt _ h, ok_bind, regSet_lt _ _ (by norm_num)]

theorem condFlagOf_cases (v : Nat) :
    condFlagOf v = 1 ∨ condFlagOf v = 2 ∨ condFlagOf v = 4 := by
  unfold condFlagOf
  split
  · exact Or.inr (Or.inl rfl)
  · split
    · exact Or.inr (Or.inr rfl)
    · exact Or.inl rfl

theorem and7_lt10 (x : Nat) : x &&& 7 < 10 :=
  lt_of_le_of_lt Nat.and_le_right (by norm_num)

theorem and7_ne9 (x : Nat) : x &&& 7 ≠ 9 := by
  have := Nat.and_le_right (n := x) (m := 7)
  omega

/-! ### Shape lemmas for memRead -/

theorem memRead_pure (m : Machine) {a : Nat} (hk : a ≠ 0xFE00) (h : a < 65536) :
    memRead m a = Except.ok (m.mem a, m) := by
  have h1 : a ≤ 65536 := by omega
  simp [memRead, hk, h1, arrGet_lt _ h, ok_bind]

theorem memRead_kbsr_nil {m : Machine} (hin : m.input = []) :
    memRead m 0xFE00 =
      Except.ok (0, { m with mem := Function.update m.mem 0xFE00 0 }) := by
  have hs : arrSet m.mem 65536 0xFE00 0 = some (Function.update m.mem 0xFE00 0) :=
    arrSet_lt _ _ (by norm_num)
  have hg : arrGet (Function.update m.mem 0xFE00 0) 65536 0xFE00
      = some (Function.update m.mem 0xFE00 0 0xFE00) := arrGet_lt _ (by norm_num)
  simp [memRead, hin, hs, hg, Function.update_same, ok_bind]

theorem memRead_kbsr_cons {m : Machine} {c : Nat} {rest : List Nat}
    (hin : m.input = c :: rest) :
    memRead m 0xFE00 =
      Except.ok (32768,
        { m with
          mem := Function.update (Function.update m.mem 0xFE00 32768) 0xFE02 (c % 256)
          input := rest }) := by
  have hs1 : arrSet m.mem 65536 0xFE00 (1 <<< 15)
      = some (Function.update m.mem 0xFE00 32768) := by
    rw [arrSet_lt _ _ (by norm_num)]
    norm_num [Nat.shiftLeft_eq]
  have hs2 : arrSet (Function.update m.mem 0xFE00 32768) 65536 0xFE02 (c % 256)
      = some (Function.update (Function.update m.mem 0xFE00 32768) 0xFE02 (c % 256)) :=
    arrSet_lt _ _ (by norm_num)
  have hg : arrGet (Function.update (Function.update m.mem 0xFE00 32768) 0xFE02 (c % 256))
      65536 0xFE00
      = some (Function.update (Function.update m.mem 0xFE00 32768) 0xFE02 (c % 256) 0xFE00) :=
    arrGet_lt _ (by norm_num)
  simp only [memRead, hin, hs1, hs2, hg, ok_bind]
  rw [Function.update_noteq (by norm_num), Function.update_same]
  simp

theorem memRead_oob {m : Machine} {a : Nat} (h : 65536 ≤ a) :
    memRead m a = Except.error Fault.oob := by
  have hk : a ≠ 0xFE00 := by omega
  by_cases h1 : a ≤ 65536
  · have ha : a = 65536 := by omega
    subst ha
    simp [memRead, hk, arrGet, ok_bind]
  · simp [memRead, hk, h1, ok_bind]

theorem memRead_ok_inv {m : Machine} {a v : Nat} {m1 : Machine}
    (h : memRead m a = Except.ok (v, m1)) :
    m1.reg = m.reg ∧ m1.running = m.running ∧ m1.output = m.output := by
  by_cases hk : a = 0xFE00
  · subst hk
    cases hin : m.input with
    | nil =>
      rw [memRead_kbsr_nil hin] at h
      cases h
      exact ⟨rfl, rfl, rfl⟩
    | cons c rest =>
      rw [memRead_kbsr_cons hin] at h
      cases h
      exact ⟨rfl, rfl, rfl⟩
  · by_cases ha : a < 65536
    · rw [memRead_pure m hk ha] at h
      cases h
      exact ⟨rfl, rfl, rfl⟩
    · rw [memRead_oob (by omega)] at h
      exact absurd h (fun hc => Except.noConfusion hc)

theorem memRead_total (m : Machine) (a : Nat) (ha : a < 65536) (hw : WF m) :
    ∃ v m1, memRead m a = Except.ok (v, m1) ∧ v < 65536 ∧ WF m1 ∧ m1.reg = m.reg := by
  by_cases hk : a = 0xFE00
  · subst hk
    cases hin : m.input with
    | nil =>
      refine ⟨0, _, memRead_kbsr_nil hin, by norm_num, ⟨hw.1, ?_⟩, rfl⟩
      intro b
      show Function.update m.mem 0xFE00 0 b < 65536
      rw [Function.update_apply]
      split
      · norm_num
      · exact hw.2 b
    | cons c rest =>
      refine ⟨32768, _, memRead_kbsr_cons hin, by norm_num, ⟨hw.1, ?_⟩, rfl⟩
      intro b
      show Function.update (Function.update m.mem 0xFE00 32768) 0xFE02 (c % 256) b < 65536
      rw [Function.update_apply, Function.update_apply]
      have := Nat.mod_lt c (show 0 < 256 by norm_num)
      split
      · omega
      · split
        · norm_num
        · exact hw.2 b
  · exact ⟨m.mem a, m, memRead_pure m hk ha, hw.2 a, hw, rfl⟩

/-! ### Condition-flag behaviour of the opcode handlers -/

theorem updateFlags_cond {m m2 : Machine} {r : Nat} (hr : r < 10) (hr9 : r ≠ 9)
    (h : updateFlags m r = Except.ok m2) :
    m2.reg 9 = condFlagOf (m2.reg r) := by
  rw [updateFlags_eq _ hr] at h
  cases h
  show Function.update m.reg 9 (condFlagOf (m.reg r)) 9
      = condFlagOf (Function.update m.reg 9 (condFlagOf (m.reg r)) r)
  rw [Function.update_same, Function.update_noteq hr9]

theorem opAdd_cond {m m2 : Machine} {instr : Nat} (h : opAdd m instr = Except.ok m2) :
    m2.reg 9 = condFlagOf (m2.reg ((instr >>> 9) &&& 7)) := by
  simp only [opAdd] at h
  split at h
  · obtain ⟨v1, -, h⟩ := bind_ok_inv h
    obtain ⟨m1, -, h2⟩ := bind_ok_inv h
    exact updateFlags_cond (and7_lt10 _) (and7_ne9 _) h2
  · obtain ⟨v1, -, h⟩ := bind_ok_inv h
    obtain ⟨v2, -, h⟩ := bind_ok_inv h
    obtain ⟨m1, -, h2⟩ := bind_ok_inv h
    exact updateFlags_cond (and7_lt10 _) (and7_ne9 _) h2

theorem opAnd_cond {m m2 : Machine} {instr : Nat} (h : opAnd m instr = Except.ok m2) :
    m2.reg 9 = condFlagOf (m2.reg ((instr >>> 9) &&& 7)) := by
  simp only [opAnd] at h
  split at h
  · obtain ⟨v1, -, h⟩ := bind_ok_inv h
    obtain ⟨v2, -, h⟩ := bind_ok_inv h
    obtain ⟨m1, -, h2⟩ := bind_ok_inv h
    exact updateFlags_cond (and7_lt10 _) (and7_ne9 _) h2
  · obtain ⟨v1, -, h⟩ := bind_ok_inv h
    obtain ⟨m1, -, h2⟩ := bind_ok_inv h
    exact updateFlags_cond (and7_lt10 _) (and7_ne9 _) h2

theorem opNot_cond {m m2 : Machine} {instr : Nat} (h : opNot m instr = Except.ok m2) :
    m2.reg 9 = condFlagOf (m2.reg ((instr >>> 9) &&& 7)) := by
  simp only [opNot] at h
  obtain ⟨v1, -, h⟩ := bind_ok_inv h
  obtain ⟨m1, -, h2⟩ := bind_ok_inv h
  exact updateFlags_cond (and7_lt10 _) (and7_ne9 _) h2

theorem opLea_cond {m m2 : Machine} {instr : Nat} (h : opLea m instr = Except.ok m2) :
    m2.reg 9 = condFlagOf (m2.reg ((instr >>> 9) &&& 7)) := by
  simp only [opLea] at h
  obtain ⟨pc, -, h⟩ := bind_ok_inv h
  obtain ⟨m1, -, h2⟩ := bind_ok_inv h
  exact updateFlags_cond (and7_lt10 _) (and7_ne9 _) h2

theorem opLd_cond {m m2 : Machine} {instr : Nat} (h : opLd m instr = Except.ok m2) :
    m2.reg 9 = condFlagOf (m2.reg ((instr >>> 9) &&& 7)) := by
  simp only [opLd] at h
  obtain ⟨pc, -, h⟩ := bind_ok_inv h
  obtain ⟨⟨v, m1⟩, -, h⟩ := bind_ok_inv h
  obtain ⟨m2x, -, h2⟩ := bind_ok_inv h
  exact updateFlags_cond (and7_lt10 _) (and7_ne9 _) h2

theorem opLdi_cond {m m2 : Machine} {instr : Nat} (h : opLdi m instr = Except.ok m2) :
    m2.reg 9 = condFlagOf (m2.reg ((instr >>> 9) &&& 7)) := by
  simp only [opLdi] at h
  obtain ⟨pc, -, h⟩ := bind_ok_inv h
  obtain ⟨⟨a, m1⟩, -, h⟩ := bind_ok_inv h
  obtain ⟨⟨v, m2x⟩, -, h⟩ := bind_ok_inv h
  obtain ⟨m3, -, h2⟩ := bind_ok_inv h
  exact updateFlags_cond (and7_lt10 _) (and7_ne9 _) h2

theorem opLdr_cond {m m2 : Machine} {instr : Nat} (h : opLdr m instr = Except.ok m2) :
    m2.reg 9 = condFlagOf (m2.reg ((instr >>> 9) &&& 7)) := by
  simp only [opLdr] at h
  obtain ⟨base, -, h⟩ := bind_ok_inv h
  obtain ⟨⟨v, m1⟩, -, h⟩ := bind_ok_inv h
  obtain ⟨m2x, -, h2⟩ := bind_ok_inv h
  exact updateFlags_cond (and7_lt10 _) (and7_ne9 _) h2

theorem opBr_reg9 {m m2 : Machine} {instr : Nat} (h : opBr m instr = Except.ok m2) :
    m2.reg 9 = m.reg 9 := by
  simp only [opBr] at h
  obtain ⟨c, -, h⟩ := bind_ok_inv h
  split at h
  · obtain ⟨pc, -, h⟩ := bind_ok_inv h
    rw [regSet_lt _ _ (by norm_num)] at h
    cases h
    show Function.update m.reg 8 ((pc + signExtend (instr &&& 511) 9) % 65536) 9 = m.reg 9
    rw [Function.update_noteq (show (9 : Nat) ≠ 8 by norm_num)]
  · cases h; rfl

theorem opJmp_reg9 {m m2 : Machine} {instr : Nat} (h : opJmp m instr = Except.ok m2) :
    m2.reg 9 = m.reg 9 := by
  simp only [opJmp] at h
  obtain ⟨v, -, h⟩ := bind_ok_inv h
  rw [regSet_lt _ _ (by norm_num)] at h
  cases h
  show Function.update m.reg 8 v 9 = m.reg 9
  rw [Function.update_noteq (show (9 : Nat) ≠ 8 by norm_num)]

theorem opJsr_reg9 {m m2 : Machine} {instr : Nat} (h : opJsr m instr = Except.ok m2) :
    m2.reg 9 = m.reg 9 := by
  simp only [opJsr] at h
  obtain ⟨pc, -, h⟩ := bind_ok_inv h
  obtain ⟨m1, h1, h⟩ := bind_ok_inv h
  rw [regSet_lt _ _ (by norm_num)] at h1
  cases h1
  split at h
  · obtain ⟨v, -, h⟩ := bind_ok_inv h
    rw [regSet_lt _ _ (by norm_num)] at h
    cases h
    show Function.update (Function.update m.reg 7 pc) 8 v 9 = m.reg 9
    rw [Function.update_noteq (show (9 : Nat) ≠ 8 by norm_num),
      Function.update_noteq (show (9 : Nat) ≠ 7 by norm_num)]
  · obtain ⟨pc2, -, h⟩ := bind_ok_inv h
    rw [regSet_lt _ _ (by norm_num)] at h
    cases h
    show Function.update (Function.update m.reg 7 pc) 8
      ((pc2 + signExtend (instr &&& 2047) 11) % 65536) 9 = m.reg 9
    rw [Function.update_noteq (show (9 : Nat) ≠ 8 by norm_num),
      Function.update_noteq (show (9 : Nat) ≠ 7 by norm_num)]

theorem opSt_reg9 {m m2 : Machine} {instr : Nat} (h : opSt m instr = Except.ok m2) :
    m2.reg 9 = m.reg 9 := by
  simp only [opSt] at h
  obtain ⟨pc, -, h⟩ := bind_ok_inv h
  obtain ⟨v, -, h⟩ := bind_ok_inv h
  exact congrFun (memWrite_ok_inv h).1 9

theorem opStr_reg9 {m m2 : Machine} {instr : Nat} (h : opStr m instr = Except.ok m2) :
    m2.reg 9 = m.reg 9 := by
  simp only [opStr] at h
  obtain ⟨base, -, h⟩ := bind_ok_inv h
  obtain ⟨v, -, h⟩ := bind_ok_inv h
  exact congrFun (memWrite_ok_inv h).1 9

theorem opSti_reg9 {m m2 : Machine} {instr : Nat} (h : opSti m instr = Except.ok m2) :
    m2.reg 9 = m.reg 9 := by
  simp only [opSti] at h
  obtain ⟨pc, -, h⟩ := bind_ok_inv h
  obtain ⟨⟨a, m1⟩, hmr, h⟩ := bind_ok_inv h
  obtain ⟨v, -, h⟩ := bind_ok_inv h
  rw [congrFun (memWrite_ok_inv h).1 9]
  exact congrFun (memRead_ok_inv hmr).1 9

theorem opRti_reg9 {m m2 : Machine} (instr : Nat) (h : opRti m instr = Except.ok m2) :
    m2.reg 9 = m.reg 9 := by
  cases h; rfl

theorem opRes_reg9 {m m2 : Machine} (instr : Nat) (h : opRes m instr = Except.ok m2) :
    m2.reg 9 = m.reg 9 := by
  cases h; rfl

theorem opTrap_cond {m m2 : Machine} {instr : Nat} (h : opTrap m instr = Except.ok m2) :
    m2.reg 9 = m.reg 9 ∨ ∃ v, m2.reg 9 = condFlagOf v := by
  simp only [opTrap] at h
  obtain ⟨pc, -, h⟩ := bind_ok_inv h
  obtain ⟨m1, h1, h⟩ := bind_ok_inv h
  rw [regSet_lt _ _ (by norm_num)] at h1
  cases h1
  have h79 : Function.update m.reg 7 pc 9 = m.reg 9 :=
    Function.update_noteq (by norm_num) _ _
  split at h
  · -- GETC
    split at h
    · obtain ⟨m2x, -, h2⟩ := bind_ok_inv h
      exact Or.inr ⟨_, updateFlags_cond (by norm_num) (by norm_num) h2⟩
    · exact absurd h (fun hc => Except.noConfusion hc)
  · -- OUT
    obtain ⟨c, -, h⟩ := bind_ok_inv h
    cases h
    exact Or.inl h79
  · -- PUTS
    obtain ⟨a, -, h⟩ := bind_ok_inv h
    split at h
    · cases h
      exact Or.inl h79
    · exact absurd h (fun hc => Except.noConfusion hc)
  · -- IN
    split at h
    · obtain ⟨m2x, -, h2⟩ := bind_ok_inv h
      exact Or.inr ⟨_, updateFlags_cond (by norm_num) (by norm_num) h2⟩
    · exact absurd h (fun hc => Except.noConfusion hc)
  · -- PUTSP
    obtain ⟨a, -, h⟩ := bind_ok_inv h
    split at h
    · cases h
      exact Or.inl h79
    · exact absurd h (fun hc => Except.noConfusion hc)
  · -- HALT
    cases h
    exact Or.inl h79
  · -- unknown vector
    cases h
    exact Or.inl h79

theorem dispatch_cond {k : Nat} {m m2 : Machine} {instr : Nat}
    (h : dispatch k m instr = Except.ok m2) :
    m2.reg 9 = m.reg 9 ∨ ∃ v, m2.reg 9 = condFlagOf v :=
  match k, h with
  | 0, h => Or.inl (opBr_reg9 h)
  | 1, h => Or.inr ⟨_, opAdd_cond h⟩
  | 2, h => Or.inr ⟨_, opLd_cond h⟩
  | 3, h => Or.inl (opSt_reg9 h)
  | 4, h => Or.inl (opJsr_reg9 h)
  | 5, h => Or.inr ⟨_, opAnd_cond h⟩
  | 6, h => Or.inr ⟨_, opLdr_cond h⟩
  | 7, h => Or.inl (opStr_reg9 h)
  | 8, h => Or.inl (opRti_reg9 instr h)
  | 9, h => Or.inr ⟨_, opNot_cond h⟩
  | 10, h => Or.inr ⟨_, opLdi_cond h⟩
  | 11, h => Or.inl (opSti_reg9 h)
  | 12, h => Or.inl (opJmp_reg9 h)
  | 13, h => Or.inl (opRes_reg9 instr h)
  | 14, h => Or.inr ⟨_, opLea_cond h⟩
  | 15, h => opTrap_cond h
  | _ + 16, h => absurd h (fun hc => Except.noConfusion hc)

theorem step_cond {m m2 : Machine} (h : step m = Except.ok m2) :
    m2.reg 9 = m.reg 9 ∨ ∃ v, m2.reg 9 = condFlagOf v := by
  simp only [step] at h
  obtain ⟨pc, -, h⟩ := bind_ok_inv h
  obtain ⟨⟨instr, m1⟩, hmr, h⟩ := bind_ok_inv h
  obtain ⟨pc1, -, h⟩ := bind_ok_inv h
  obtain ⟨m2x, hset, h⟩ := bind_ok_inv h
  rw [regSet_lt _ _ (by norm_num)] at hset
  cases hset
  rcases dispatch_cond h with h9 | h9
  · left
    rw [h9]
    show Function.update m1.reg 8 ((pc1 + 1) % 65536) 9 = m.reg 9
    rw [Function.update_noteq (show (9 : Nat) ≠ 8 by norm_num)]
    exact congrFun (memRead_ok_inv hmr).1 9
  · exact Or.inr h9

theorem initMachine_cond (mem : Nat → Nat) (input : List Nat) :
    (initMachine mem input).reg 9 = 2 := by
  show Function.update (Function.update (fun _ => 0) 9 2) 8 0x3000 9 = 2
  rw [Function.update_noteq (show (9 : Nat) ≠ 8 by norm_num), Function.update_same]

theorem reaches_cond {m0 m : Machine} (hinit : m0.reg 9 = 2)
    (h : Reaches m0 m) : m.reg 9 = 1 ∨ m.reg 9 = 2 ∨ m.reg 9 = 4 := by
  induction h with
  | refl => exact Or.inr (Or.inl hinit)
  | tail hr hrun hstep ih =>
    rcases step_cond hstep with h9 | ⟨v, h9⟩
    · rw [h9]; exact ih
    · rw [h9]; exact condFlagOf_cases v

/-! ### Characterization of the ADD handler -/

theorem opAdd_eq (m : Machine) (instr : Nat) :
    opAdd m instr = Except.ok
      { m with
        reg := Function.update (Function.update m.reg ((instr >>> 9) &&& 7)
            (if (instr >>> 5) &&& 1 = 1
             then (m.reg ((instr >>> 6) &&& 7) + signExtend (instr &&& 31) 5) % 65536
             else (m.reg ((instr >>> 6) &&& 7) + m.reg (instr &&& 7)) % 65536)) 9
          (condFlagOf (if (instr >>> 5) &&& 1 = 1
             then (m.reg ((instr >>> 6) &&& 7) + signExtend (instr &&& 31) 5) % 65536
             else (m.reg ((instr >>> 6) &&& 7) + m.reg (instr &&& 7)) % 65536)) } := by
  simp only [opAdd]
  by_cases himm : (instr >>> 5) &&& 1 = 1
  · rw [if_pos himm, if_pos himm,
      regGet_lt _ (and7_lt10 _), ok_bind, regSet_lt _ _ (and7_lt10 _), ok_bind,
      updateFlags_eq _ (and7_lt10 _)]
    simp only [Function.update_same]
  · rw [if_neg himm, if_neg himm,
      regGet_lt _ (and7_lt10 _), ok_bind, regGet_lt _ (and7_lt10 _), ok_bind,
      regSet_lt _ _ (and7_lt10 _), ok_bind, updateFlags_eq _ (and7_lt10 _)]
    simp only [Function.update_same]

/-! ### Claim theorems -/

/-- C1: evaluation of the source PUTSP at a failing input.  With memory
holding the two-character string "AB" (words 0x41, 0x42, then a zero
terminator) at R0 = 0x4000, executing TRAP 0x24 outputs only [0x41]
("A"): because the word index is incremented both in the loop header
and in the loop body, the word 0x42 at 0x4001 is skipped and the zero
at 0x4002 is read next.  The specified behavior (putspSpecLoop, one
word per iteration) outputs [0x41, 0x42]. -/
theorem putsp_skips_every_other_word :
    (execInstr machineAB 0xF024).map Machine.output = Except.ok [0x41] ∧
    putspSpecLoop memAB 0x4000 65536 0 = [0x41, 0x42] ∧
    ([0x41] : List Nat) ≠ [0x41, 0x42] :=
  ⟨by decide, by decide, by decide⟩

/-- C2: evaluation of the source at the failing input.  Executing an
instruction with opcode 8 (RTI, word 0x8000) or opcode 13 (RES, word
0xD000) is a no-op: the switch cases are empty and Go switch cases do
not fall through, so execution returns the machine unchanged (still
running) instead of reaching the `panic("bad opcode")` default. -/
theorem rti_res_are_noops :
    execInstr (initMachine (fun _ => 0) []) 0x8000
        = Except.ok (initMachine (fun _ => 0) []) ∧
    execInstr (initMachine (fun _ => 0) []) 0xD000
        = Except.ok (initMachine (fun _ => 0) []) ∧
    (initMachine (fun _ => 0) []).running = true :=
  ⟨rfl, rfl, rfl⟩

/-- C4: evaluation of the source PUTS at a failing input.  With memory
{'H','i','!',0} at R0 = 0x4000, executing TRAP 0x22 outputs the FOUR
characters [72, 105, 33, 0] — the do-while loop prints each word before
testing it, so the zero terminator is printed as a NUL — instead of
exactly the three bytes "Hi!"; the VM does remain running. -/
theorem puts_prints_terminator :
    (execInstr machineHi 0xF022).map Machine.output = Except.ok [72, 105, 33, 0] ∧
    ([72, 105, 33, 0] : List Nat) ≠ [72, 105, 33] ∧
    (execInstr machineHi 0xF022).map Machine.running = Except.ok true :=
  ⟨by decide, by decide, by decide⟩

/-- C5: evaluation of the CLI surface at the failing input.  With zero
image arguments (os.Args = ["lc3"]) main prints usage and exits with
code 2, as claimed; but invoked as `lc3 prog.obj` the load loop starts
at index 0 and so attempts to load the program name "lc3" itself as an
image file before "prog.obj" — not exactly the image-file arguments. -/
theorem main_loads_argv0 :
    cliMain (fun _ => true) ["lc3"] = CliResult.usageExit2 ∧
    loadAttempts (fun _ => true) ["lc3", "prog.obj"] = ["lc3", "prog.obj"] ∧
    (["lc3", "prog.obj"] : List String) ≠ ["prog.obj"] :=
  ⟨rfl, rfl, by decide⟩

/-- C6: the ADD handler sets DR (bits 11..9) to SR1 (bits 8..6) plus —
when bit 5 is set — the sign-extended imm5, otherwise reg[SR2], reduced
modulo 2^16, and then updates the condition flags from the value written
to DR. -/
theorem add_handler_correct (m : Machine) (instr : Nat) (hop : instr >>> 12 = 1) :
    execInstr m instr = Except.ok
      { m with
        reg := Function.update (Function.update m.reg ((instr >>> 9) &&& 7)
            (if (instr >>> 5) &&& 1 = 1
             then (m.reg ((instr >>> 6) &&& 7) + signExtend (instr &&& 31) 5) % 65536
             else (m.reg ((instr >>> 6) &&& 7) + m.reg (instr &&& 7)) % 65536)) 9
          (condFlagOf (if (instr >>> 5) &&& 1 = 1
             then (m.reg ((instr >>> 6) &&& 7) + signExtend (instr &&& 31) 5) % 65536
             else (m.reg ((instr >>> 6) &&& 7) + m.reg (instr &&& 7)) % 65536)) } := by
  show dispatch (instr >>> 12) m instr = _
  rw [hop]
  exact opAdd_eq m instr

/-- C6 witness: from the zeroed initial machine, executing 0x1023
(ADD R0, R0, #3) yields R0 = 3 and COND = POS = 1; executing 0x103F
(ADD R0, R0, #-1) yields R0 = 0xFFFF and COND = NEG = 4. -/
theorem add_handler_correct_witness :
    (0x1023 : Nat) >>> 12 = 1 ∧ (0x103F : Nat) >>> 12 = 1 ∧
    (execInstr (initMachine (fun _ => 0) []) 0x1023).map
        (fun mm => (mm.reg 0, mm.reg 9)) = Except.ok (3, 1) ∧
    (execInstr (initMachine (fun _ => 0) []) 0x103F).map
        (fun mm => (mm.reg 0, mm.reg 9)) = Except.ok (65535, 4) := by
  refine ⟨by decide, by decide, ?_, ?_⟩
  · rw [add_handler_correct (initMachine (fun _ => 0) []) 0x1023 (by decide)]
    rfl
  · rw [add_handler_correct (initMachine (fun _ => 0) []) 0x103F (by decide)]
    rfl

/-- C8: for every 16-bit address other than KBSR = 0xFE00 and
KBDR = 0xFE02 and every value, mem_write followed by mem_read of the
same address returns the written value. -/
theorem memWrite_memRead (m : Machine) (a v : Nat) (ha : a < 65536)
    (h1 : a ≠ 0xFE00) (h2 : a ≠ 0xFE02) :
    (memWrite m a v >>= fun m1 => (memRead m1 a).map Prod.fst) = Except.ok v := by
  rw [memWrite_lt _ _ ha, ok_bind, memRead_pure _ h1 ha]
  show Except.ok (Function.update m.mem a v a) = Except.ok v
  rw [Function.update_same]

/-- C8 witness: at address 0x3000 with value 7 on the zeroed machine. -/
theorem memWrite_memRead_witness :
    (memWrite (initMachine (fun _ => 0) []) 0x3000 7 >>= fun m1 =>
      (memRead m1 0x3000).map Prod.fst) = Except.ok 7 :=
  memWrite_memRead _ 0x3000 7 (by decide) (by decide) (by decide)

/-! ### Closed form of the image-loading loop -/

theorem loadLoop_spec_aux (a : Nat) :
    ∀ n (mem : Nat → Nat) (data : List Nat) (i : Nat), 65535 - i = n →
      loadLoop mem i data a =
        if i ≤ a ∧ a < 65535 then data.getD (a - i) 0 else mem a := by
  intro n
  induction n with
  | zero =>
    intro mem data i hn
    have hi : ¬ i < 65535 := by omega
    rw [loadLoop, if_neg hi, if_neg (by omega)]
  | succ n ih =>
    intro mem data i hn
    have hi : i < 65535 := by omega
    rw [loadLoop, if_pos hi, ih _ _ (i + 1) (by omega)]
    by_cases hc : i + 1 ≤ a ∧ a < 65535
    · rw [if_pos hc, if_pos (by omega)]
      have hsub : a - i = (a - (i + 1)) + 1 := by omega
      rw [hsub]
      cases data with
      | nil => simp [List.getD]
      | cons x xs => simp [List.getD]
    · rw [if_neg hc]
      by_cases ha : a = i
      · subst ha
        rw [Function.update_same, if_pos (by omega), Nat.sub_self]
        cases data with
        | nil => simp [List.getD]
        | cons x xs => simp [List.getD]
      · rw [Function.update_noteq ha, if_neg (by omega)]

theorem loadLoop_spec (mem : Nat → Nat) (data : List Nat) (i a : Nat) :
    loadLoop mem i data a =
      if i ≤ a ∧ a < 65535 then data.getD (a - i) 0 else mem a :=
  loadLoop_spec_aux a (65535 - i) mem data i rfl

/-- C3: evaluation of readImage at a failing input.  Loading an image
with origin 0x3000 and the single data word 0x1234 into a memory that
previously held 0x5555 everywhere does write Memory[0x3000] = 0x1234,
but then keeps looping to the end of the address space: Memory[0x3001]
(one past the file data, previously 0x5555) is overwritten with 0, and
the loop stops before 0xFFFF, which keeps its old value even though the
claim's stopping rule would never touch it anyway. -/
theorem readImage_overwrites_tail :
    readImageMem 0x3000 [0x1234] (fun _ => 0x5555) 0x3000 = 0x1234 ∧
    readImageMem 0x3000 [0x1234] (fun _ => 0x5555) 0x3001 = 0 ∧
    readImageMem 0x3000 [0x1234] (fun _ => 0x5555) 0xFFFF = 0x5555 ∧
    (0 : Nat) ≠ 0x5555 := by
  refine ⟨?_, ?_, ?_, by norm_num⟩
  · rw [readImageMem, loadLoop_spec, if_pos (by norm_num)]
    norm_num [List.getD]
  · rw [readImageMem, loadLoop_spec, if_pos (by norm_num)]
    norm_num [List.getD]
  · rw [readImageMem, loadLoop_spec, if_neg (by norm_num)]

/-- C7: in every state reachable from the initial state (COND = ZRO = 2),
COND holds exactly one of the three flags POS = 1, ZRO = 2, NEG = 4; and
for the flag-setting opcodes (ADD = 1, LD = 2, AND = 5, LDR = 6, NOT = 9,
LDI = 10, LEA = 14) the flag in COND after a successful execution
classifies the value just written to the destination register: ZRO when
it is zero, NEG when its bit 15 is one, POS otherwise (condFlagOf). -/
theorem cond_invariant (mem0 : Nat → Nat) (inp0 : List Nat) (m : Machine)
    (h : Reaches (initMachine mem0 inp0) m) :
    (m.reg 9 = 1 ∨ m.reg 9 = 2 ∨ m.reg 9 = 4) ∧
    (∀ instr m2,
      (instr >>> 12 = 1 ∨ instr >>> 12 = 2 ∨ instr >>> 12 = 5 ∨
        instr >>> 12 = 6 ∨ instr >>> 12 = 9 ∨ instr >>> 12 = 10 ∨
        instr >>> 12 = 14) →
      execInstr m instr = Except.ok m2 →
      m2.reg 9 = condFlagOf (m2.reg ((instr >>> 9) &&& 7))) := by
  constructor
  · exact reaches_cond (initMachine_cond mem0 inp0) h
  · intro instr m2 hops hex
    have hex2 : dispatch (instr >>> 12) m instr = Except.ok m2 := hex
    rcases hops with hop | hop | hop | hop | hop | hop | hop
    · rw [hop] at hex2; exact opAdd_cond hex2
    · rw [hop] at hex2; exact opLd_cond hex2
    · rw [hop] at hex2; exact opAnd_cond hex2
    · rw [hop] at hex2; exact opLdr_cond hex2
    · rw [hop] at hex2; exact opNot_cond hex2
    · rw [hop] at hex2; exact opLdi_cond hex2
    · rw [hop] at hex2; exact opLea_cond hex2

/-- C7 witness: the initial machine itself is reachable and its COND is
ZRO = 2; moreover executing the concrete ADD 0x1023 from it gives a COND
that classifies the written register. -/
theorem cond_invariant_witness :
    ((initMachine (fun _ => 0) []).reg 9 = 1 ∨
     (initMachine (fun _ => 0) []).reg 9 = 2 ∨
     (initMachine (fun _ => 0) []).reg 9 = 4) := by
  exact (cond_invariant (fun _ => 0) [] _ (Reaches.refl _)).1

/-! ### Sign extension: masks and idempotence -/

theorem signExtend_mask_lo {n : Nat} (hn : n < 16) :
    ((1 <<< n) % 65536 + 65535) % 65536 = 2 ^ n - 1 := by
  rw [Nat.shiftLeft_eq, one_mul]
  have h1 : 2 ^ n < 65536 := by
    calc 2 ^ n < 2 ^ 16 := Nat.pow_lt_pow_right (by norm_num) hn
    _ = 65536 := by norm_num
  have h2 : 1 ≤ 2 ^ n := Nat.one_le_two_pow
  omega

theorem signExtend_mask_hi {n : Nat} (hn : 16 ≤ n) :
    ((1 <<< n) % 65536 + 65535) % 65536 = 65535 := by
  rw [Nat.shiftLeft_eq, one_mul]
  have h0 : 2 ^ n % 65536 = 0 := by
    apply Nat.mod_eq_zero_of_dvd
    rw [show (65536 : Nat) = 2 ^ 16 from by norm_num]
    exact pow_dvd_pow 2 hn
  omega

theorem or_mod_two_pow {u c n : Nat} (hu : u < 2 ^ n) (hc : 2 ^ n ∣ c) :
    (u ||| c) % 2 ^ n = u := by
  apply Nat.eq_of_testBit_eq
  intro i
  rw [Nat.testBit_mod_two_pow, Nat.testBit_or]
  by_cases hi : i < n
  · obtain ⟨k, hk⟩ := hc
    have hcbit : c.testBit i = false := by
      rw [hk, show 2 ^ n * k = k <<< n from by rw [Nat.shiftLeft_eq]; ring,
        Nat.testBit_shiftLeft]
      have hni : ¬ i ≥ n := Nat.not_le.mpr hi
      simp [hni]
    simp [hi, hcbit]
  · have hubit : u.testBit i = false :=
      Nat.testBit_lt_two_pow
        (lt_of_lt_of_le hu (Nat.pow_le_pow_right (by norm_num) (Nat.le_of_not_lt hi)))
    simp [hi, hubit]

theorem signExtend_lo_eq {n : Nat} (hlt : n < 16) (z : Nat) :
    signExtend z n =
      (if (z % 2 ^ n) >>> (n - 1) &&& 1 ≠ 0
       then (z % 2 ^ n) ||| ((65535 <<< n) % 65536)
       else z % 2 ^ n) := by
  simp only [signExtend]
  rw [signExtend_mask_lo hlt, Nat.and_pow_two_sub_one_eq_mod]

theorem signExtend_ge16 {n : Nat} (hn : 16 ≤ n) {z : Nat} (hz : z < 65536) :
    signExtend z n = z := by
  have hc : (65535 <<< n) % 65536 = 0 := by
    apply Nat.mod_eq_zero_of_dvd
    have h1 : (65536 : Nat) ∣ 2 ^ n := by
      rw [show (65536 : Nat) = 2 ^ 16 from by norm_num]
      exact pow_dvd_pow 2 hn
    have h2 : (2 : Nat) ^ n ∣ 65535 <<< n := by
      rw [Nat.shiftLeft_eq]
      exact dvd_mul_left _ _
    exact dvd_trans h1 h2
  have hand : z &&& 65535 = z := by
    rw [show (65535 : Nat) = 2 ^ 16 - 1 from by norm_num,
      Nat.and_pow_two_sub_one_eq_mod]
    exact Nat.mod_eq_of_lt hz
  simp only [signExtend, signExtend_mask_hi hn, hc, Nat.or_zero, hand]
  split <;> rfl

/-- C9: for every 16-bit word x and every bit count n with 1 ≤ n,
sign extension is idempotent. -/
theorem signExtend_idem (x n : Nat) (hx : x < 65536) (hn : 1 ≤ n) :
    signExtend (signExtend x n) n = signExtend x n := by
  rcases Nat.lt_or_ge n 16 with hlt | hge
  · have hu : x % 2 ^ n < 2 ^ n := Nat.mod_lt _ (Nat.two_pow_pos n)
    have hcdvd : (2 : Nat) ^ n ∣ (65535 <<< n) % 65536 := by
      have h16 : (2 : Nat) ^ n ∣ 65536 := by
        rw [show (65536 : Nat) = 2 ^ 16 from by norm_num]
        exact pow_dvd_pow 2 (le_of_lt hlt)
      have hsl : (2 : Nat) ^ n ∣ 65535 <<< n := by
        rw [Nat.shiftLeft_eq]
        exact dvd_mul_left _ _
      exact (Nat.dvd_mod_iff h16).mpr hsl
    rw [signExtend_lo_eq hlt x]
    by_cases htest : (x % 2 ^ n) >>> (n - 1) &&& 1 ≠ 0
    · rw [if_pos htest, signExtend_lo_eq hlt, or_mod_two_pow hu hcdvd, if_pos htest]
    · rw [if_neg htest, signExtend_lo_eq hlt, Nat.mod_mod, if_neg htest]
  · rw [signExtend_ge16 hge hx]
    exact signExtend_ge16 hge hx

/-- C9 witness: at x = 0x1F (all-ones imm5) and n = 5, where the sign
bit is set and the extension is non-trivial. -/
theorem signExtend_idem_witness :
    (0x1F : Nat) < 65536 ∧ 1 ≤ 5 ∧
    signExtend (signExtend 0x1F 5) 5 = signExtend 0x1F 5 :=
  ⟨by decide, by decide, signExtend_idem 0x1F 5 (by decide) (by decide)⟩

/-! ### Totality of the trap loops and absence of out-of-range accesses -/

theorem putsLoop_some (mem : Nat → Nat) (address : Nat) :
    ∀ fuel i, ∃ out, putsLoop mem address fuel i = some out := by
  intro fuel
  induction fuel with
  | zero => exact fun i => ⟨[], rfl⟩
  | succ n ih =>
    intro i
    obtain ⟨out, hout⟩ := ih ((i + 1) % 65536)
    have hget : arrGet mem 65536 ((address + i) % 65536)
        = some (mem ((address + i) % 65536)) :=
      arrGet_lt _ (Nat.mod_lt _ (by norm_num))
    simp only [putsLoop, hget, Option.bind_eq_bind, Option.some_bind]
    split
    · exact ⟨_, rfl⟩
    · rw [hout]
      exact ⟨_, rfl⟩

theorem putsLoop_ne_none (mem : Nat → Nat) (address fuel i : Nat) :
    putsLoop mem address fuel i ≠ none := by
  obtain ⟨out, hout⟩ := putsLoop_some mem address fuel i
  rw [hout]
  exact fun hc => Option.noConfusion hc

theorem putspLoop_some (mem : Nat → Nat) (address : Nat) :
    ∀ fuel i, ∃ out, putspLoop mem address fuel i = some out := by
  intro fuel
  induction fuel with
  | zero => exact fun i => ⟨[], rfl⟩
  | succ n ih =>
    intro i
    obtain ⟨out, hout⟩ := ih ((i + 2) % 65536)
    have hget : arrGet mem 65536 ((address + i) % 65536)
        = some (mem ((address + i) % 65536)) :=
      arrGet_lt _ (Nat.mod_lt _ (by norm_num))
    simp only [putspLoop, hget, Option.bind_eq_bind, Option.some_bind]
    split
    · exact ⟨_, rfl⟩
    · rw [hout]
      exact ⟨_, rfl⟩

theorem putspLoop_ne_none (mem : Nat → Nat) (address fuel i : Nat) :
    putspLoop mem address fuel i ≠ none := by
  obtain ⟨out, hout⟩ := putspLoop_some mem address fuel i
  rw [hout]
  exact fun hc => Option.noConfusion hc

theorem opBr_no_oob (m : Machine) (instr : Nat) :
    opBr m instr ≠ Except.error Fault.oob := by
  simp only [opBr, regGet_lt _ (show (9 : Nat) < 10 by norm_num), ok_bind]
  split
  · simp only [regGet_lt _ (show (8 : Nat) < 10 by norm_num), ok_bind,
      regSet_lt _ _ (show (8 : Nat) < 10 by norm_num)]
    exact fun hc => Except.noConfusion hc
  · exact fun hc => Except.noConfusion hc

theorem opAdd_no_oob (m : Machine) (instr : Nat) :
    opAdd m instr ≠ Except.error Fault.oob := by
  rw [opAdd_eq]
  exact fun hc => Except.noConfusion hc

theorem opAnd_no_oob (m : Machine) (instr : Nat) :
    opAnd m instr ≠ Except.error Fault.oob := by
  simp only [opAnd]
  split
  · simp only [regGet_lt _ (and7_lt10 _), ok_bind,
      regSet_lt _ _ (and7_lt10 _), updateFlags_eq _ (and7_lt10 _)]
    exact fun hc => Except.noConfusion hc
  · simp only [regGet_lt _ (and7_lt10 _), ok_bind,
      regSet_lt _ _ (and7_lt10 _), updateFlags_eq _ (and7_lt10 _)]
    exact fun hc => Except.noConfusion hc

theorem opNot_no_oob (m : Machine) (instr : Nat) :
    opNot m instr ≠ Except.error Fault.oob := by
  simp only [opNot, regGet_lt _ (and7_lt10 _), ok_bind,
    regSet_lt _ _ (and7_lt10 _), updateFlags_eq _ (and7_lt10 _)]
  exact fun hc => Except.noConfusion hc

theorem opJmp_no_oob (m : Machine) (instr : Nat) :
    opJmp m instr ≠ Except.error Fault.oob := by
  simp only [opJmp, regGet_lt _ (and7_lt10 _), ok_bind,
    regSet_lt _ _ (show (8 : Nat) < 10 by norm_num)]
  exact fun hc => Except.noConfusion hc

theorem opJsr_no_oob (m : Machine) (instr : Nat) :
    opJsr m instr ≠ Except.error Fault.oob := by
  simp only [opJsr, regGet_lt _ (show (8 : Nat) < 10 by norm_num), ok_bind,
    regSet_lt _ _ (show (7 : Nat) < 10 by norm_num)]
  split
  · simp only [regGet_lt _ (and7_lt10 _), ok_bind,
      regSet_lt _ _ (show (8 : Nat) < 10 by norm_num)]
    exact fun hc => Except.noConfusion hc
  · simp only [regGet_lt _ (show (8 : Nat) < 10 by norm_num), ok_bind,
      regSet_lt _ _ (show (8 : Nat) < 10 by norm_num)]
    exact fun hc => Except.noConfusion hc

theorem opLea_no_oob (m : Machine) (instr : Nat) :
    opLea m instr ≠ Except.error Fault.oob := by
  simp only [opLea, regGet_lt _ (show (8 : Nat) < 10 by norm_num), ok_bind,
    regSet_lt _ _ (and7_lt10 _), updateFlags_eq _ (and7_lt10 _)]
  exact fun hc => Except.noConfusion hc

theorem opLd_no_oob (m : Machine) (instr : Nat) (hw : WF m) :
    opLd m instr ≠ Except.error Fault.oob := by
  simp only [opLd, regGet_lt _ (show (8 : Nat) < 10 by norm_num), ok_bind]
  obtain ⟨v, m1, hmr, hv, hw1, hreg⟩ :=
    memRead_total m ((m.reg 8 + signExtend (instr &&& 511) 9) % 65536)
      (Nat.mod_lt _ (by norm_num)) hw
  simp only [hmr, ok_bind, regSet_lt _ _ (and7_lt10 _),
    updateFlags_eq _ (and7_lt10 _)]
  exact fun hc => Except.noConfusion hc

theorem opLdr_no_oob (m : Machine) (instr : Nat) (hw : WF m) :
    opLdr m instr ≠ Except.error Fault.oob := by
  simp only [opLdr, regGet_lt _ (and7_lt10 _), ok_bind]
  obtain ⟨v, m1, hmr, hv, hw1, hreg⟩ :=
    memRead_total m ((m.reg ((instr >>> 6) &&& 7) + signExtend (instr &&& 63) 6) % 65536)
      (Nat.mod_lt _ (by norm_num)) hw
  simp only [hmr, ok_bind, regSet_lt _ _ (and7_lt10 _),
    updateFlags_eq _ (and7_lt10 _)]
  exact fun hc => Except.noConfusion hc

theorem opLdi_no_oob (m : Machine) (instr : Nat) (hw : WF m) :
    opLdi m instr ≠ Except.error Fault.oob := by
  simp only [opLdi, regGet_lt _ (show (8 : Nat) < 10 by norm_num), ok_bind]
  obtain ⟨a, m1, hmr, ha, hw1, hreg⟩ :=
    memRead_total m ((m.reg 8 + signExtend (instr &&& 511) 9) % 65536)
      (Nat.mod_lt _ (by norm_num)) hw
  obtain ⟨v, m2x, hmr2, hv, hw2, hreg2⟩ := memRead_total m1 a ha hw1
  simp only [hmr, ok_bind, hmr2, regSet_lt _ _ (and7_lt10 _),
    updateFlags_eq _ (and7_lt10 _)]
  exact fun hc => Except.noConfusion hc

theorem opSt_no_oob (m : Machine) (instr : Nat) :
    opSt m instr ≠ Except.error Fault.oob := by
  simp only [opSt, regGet_lt _ (show (8 : Nat) < 10 by norm_num), ok_bind,
    regGet_lt _ (and7_lt10 _),
    memWrite_lt _ _ (Nat.mod_lt _ (by norm_num))]
  exact fun hc => Except.noConfusion hc

theorem opStr_no_oob (m : Machine) (instr : Nat) :
    opStr m instr ≠ Except.error Fault.oob := by
  simp only [opStr, regGet_lt _ (and7_lt10 _), ok_bind,
    memWrite_lt _ _ (Nat.mod_lt _ (by norm_num))]
  exact fun hc => Except.noConfusion hc

theorem opSti_no_oob (m : Machine) (instr : Nat) (hw : WF m) :
    opSti m instr ≠ Except.error Fault.oob := by
  simp only [opSti, regGet_lt _ (show (8 : Nat) < 10 by norm_num), ok_bind]
  obtain ⟨a, m1, hmr, ha, hw1, hreg⟩ :=
    memRead_total m ((m.reg 8 + signExtend (instr &&& 511) 9) % 65536)
      (Nat.mod_lt _ (by norm_num)) hw
  simp only [hmr, ok_bind, regGet_lt _ (and7_lt10 _), memWrite_lt _ _ ha]
  exact fun hc => Except.noConfusion hc

theorem opRti_no_oob (m : Machine) (instr : Nat) :
    opRti m instr ≠ Except.error Fault.oob :=
  fun hc => Except.noConfusion hc

theorem opRes_no_oob (m : Machine) (instr : Nat) :
    opRes m instr ≠ Except.error Fault.oob :=
  fun hc => Except.noConfusion hc

theorem opTrap_no_oob (m : Machine) (instr : Nat) :
    opTrap m instr ≠ Except.error Fault.oob := by
  simp only [opTrap, regGet_lt _ (show (8 : Nat) < 10 by norm_num), ok_bind,
    regSet_lt _ _ (show (7 : Nat) < 10 by norm_num)]
  split
  · -- GETC
    split
    · simp only [regSet_lt _ _ (show (0 : Nat) < 10 by norm_num), ok_bind,
        updateFlags_eq _ (show (0 : Nat) < 10 by norm_num)]
      exact fun hc => Except.noConfusion hc
    · exact fun hc => Fault.noConfusion (Except.error.inj hc)
  · -- OUT
    simp only [regGet_lt _ (show (0 : Nat) < 10 by norm_num), ok_bind]
    exact fun hc => Except.noConfusion hc
  · -- PUTS
    simp only [regGet_lt _ (show (0 : Nat) < 10 by norm_num), ok_bind]
    split
    · exact fun hc => Except.noConfusion hc
    · rename_i heq
      exact absurd heq (putsLoop_ne_none _ _ _ _)
  · -- IN
    split
    · simp only [regSet_lt _ _ (show (0 : Nat) < 10 by norm_num), ok_bind,
        updateFlags_eq _ (show (0 : Nat) < 10 by norm_num)]
      exact fun hc => Except.noConfusion hc
    · exact fun hc => Fault.noConfusion (Except.error.inj hc)
  · -- PUTSP
    simp only [regGet_lt _ (show (0 : Nat) < 10 by norm_num), ok_bind]
    split
    · exact fun hc => Except.noConfusion hc
    · rename_i heq
      exact absurd heq (putspLoop_ne_none _ _ _ _)
  · -- HALT
    exact fun hc => Except.noConfusion hc
  · -- unknown vector
    exact fun hc => Except.noConfusion hc

/-- C10: from every well-formed state (all registers and memory cells
hold 16-bit values, as the Go uint16 types guarantee) and for every
16-bit instruction word, executing the instruction never commits an
out-of-range access: every register index a handler extracts is masked
with &&& 7 and so lies below the register-file size 10, and every
address reaching mem_read / mem_write is a 16-bit value accepted by
their bounds checks.  The only non-ok outcomes are the explicit Go
panics (empty host input in GETC / IN), never `Fault.oob`. -/
theorem execInstr_no_oob (m : Machine) (instr : Nat) (hw : WF m)
    (hi : instr < 65536) :
    execInstr m instr ≠ Except.error Fault.oob := by
  have h2 : (2 : Nat) ^ 12 = 4096 := by norm_num
  have hop : instr >>> 12 < 16 := by
    rw [Nat.shiftRight_eq_div_pow, h2]
    omega
  show dispatch (instr >>> 12) m instr ≠ Except.error Fault.oob
  set k := instr >>> 12 with hk
  interval_cases k
  · exact opBr_no_oob m instr
  · exact opAdd_no_oob m instr
  · exact opLd_no_oob m instr hw
  · exact opSt_no_oob m instr
  · exact opJsr_no_oob m instr
  · exact opAnd_no_oob m instr
  · exact opLdr_no_oob m instr hw
  · exact opStr_no_oob m instr
  · exact opRti_no_oob m instr
  · exact opNot_no_oob m instr
  · exact opLdi_no_oob m instr hw
  · exact opSti_no_oob m instr hw
  · exact opJmp_no_oob m instr
  · exact opRes_no_oob m instr
  · exact opLea_no_oob m instr
  · exact opTrap_no_oob m instr

/-- C10 witness: the zeroed initial machine is well-formed and executing
the concrete ADD word 0x1023 commits no out-of-range access. -/
theorem execInstr_no_oob_witness :
    execInstr (initMachine (fun _ => 0) []) 0x1023 ≠ Except.error Fault.oob := by
  apply execInstr_no_oob (initMachine (fun _ => 0) []) 0x1023
  · constructor
    · intro i
      show Function.update (Function.update (fun _ => 0) 9 2) 8 0x3000 i < 65536
      rw [Function.update_apply, Function.update_apply]
      split
      · norm_num
      · split
        · norm_num
        · norm_num
    · intro a
      show (0 : Nat) < 65536
      norm_num
  · norm_num
